import Mathlib

/-!
Verification of the room/prefab synchronization engine (`src/room.rs`).

The Rust code is shallowly embedded:
* `HashMap` values become association lists (`List (String × α)`); the source
  maps always have unique keys, which appears as `Nodup` hypotheses where a
  proof needs it.
* `f32` field values are modelled as `Int`: the properties under verification
  depend only on structural equality of field values, never on float
  arithmetic.
* Bevy `Entity` handles and the erased `dyn Prefab` behaviors are modelled as
  natural numbers; `commands.spawn_empty()` allocating a fresh entity becomes
  a counter threaded through the system state.
* The side effects issued through `Commands` / the registry (spawn, update,
  despawn of entities) are collected into an explicit effect trace.
* A Rust panic (indexing a missing key, `unwrap`) is modelled as `none`.
-/

namespace HanaPrefab

/-- Association-list lookup, first match wins (models `HashMap::get`). -/
def lookupA {κ α : Type} [DecidableEq κ] (k : κ) : List (κ × α) → Option α
  | [] => none
  | (k', v) :: rest => if k' = k then some v else lookupA k rest

/-- Association-list insert: replaces any existing binding for the key
(models `HashMap::insert`). -/
def insertA {κ α : Type} [DecidableEq κ] (k : κ) (v : α) (l : List (κ × α)) :
    List (κ × α) :=
  (k, v) :: l.filter (fun p => p.1 ≠ k)

/-- Association-list removal (models `HashMap::remove`). -/
def removeA {κ α : Type} [DecidableEq κ] (k : κ) (l : List (κ × α)) :
    List (κ × α) :=
  l.filter (fun p => p.1 ≠ k)

/-- The keys of an association list. -/
def keysOf {κ α : Type} (l : List (κ × α)) : List κ :=
  l.map Prod.fst

/-- An enum used for determining type of a field (`PrefabField` in
`src/room.rs`; `f32` modelled as `Int`, see the module comment). -/
inductive PrefabField : Type
  | Number (v : Int)
  | Bool (b : Bool)
  | Vec2 (x y : Int)
  | String (s : String)
  | None
deriving DecidableEq, Repr

/-- The data of a single prefab: its type tag and its named fields
(`PrefabData` in `src/room.rs`). -/
structure PrefabData : Type where
  prefab_type : String
  fields : List (String × PrefabField)
deriving DecidableEq, Repr

/-- Embedding of `PrefabData::get_changed_fields`: if the type tags differ a
warning is logged and the empty map is returned; otherwise each field of the
new prefab is kept when it is absent from the old prefab or bound to a
different value there. -/
def PrefabData.get_changed_fields (old_prefab new_prefab : PrefabData) :
    List (String × PrefabField) :=
  if old_prefab.prefab_type ≠ new_prefab.prefab_type then
    []
  else
    new_prefab.fields.filterMap (fun kf =>
      match lookupA kf.1 old_prefab.fields with
      | some other_field => if other_field ≠ kf.2 then some kf else none
      | none => some kf)

/-- A room: a map from instance names to prefab descriptors
(`Room` in `src/room.rs`). -/
structure Room : Type where
  prefabs : List (String × PrefabData)
deriving DecidableEq, Repr

/-- A side effect issued through `Commands` / the `Prefab` trait: a call to a
behavior's `spawn_prfab` on a fresh entity, a call to `update_prfab` on an
existing entity, or despawning an entity. Behaviors are identified by the
natural number they were registered as. -/
inductive Effect : Type
  | spawnCall (behavior : Nat) (entity : Nat)
      (fields : List (String × PrefabField))
  | updateCall (behavior : Nat) (entity : Nat)
      (changed_fields : List (String × PrefabField))
  | despawn (entity : Nat)
deriving DecidableEq, Repr

/-- Discriminator: is this effect a `spawn_prfab` call? -/
def Effect.isSpawn : Effect → Bool
  | Effect.spawnCall _ _ _ => true
  | _ => false

/-- Discriminator: is this effect a despawn? -/
def Effect.isDespawn : Effect → Bool
  | Effect.despawn _ => true
  | _ => false

/-- Discriminator: is this effect an `update_prfab` call on the given
entity? -/
def Effect.isUpdateOn (entity : Nat) : Effect → Bool
  | Effect.updateCall _ e _ => e = entity
  | _ => false

/-- The prefab registry: a map from type tags to (erased) behaviors
(`PrefabRegistry` in `src/room.rs`; behaviors modelled as `Nat`). -/
structure PrefabRegistry : Type where
  prefabs : List (String × Nat)
deriving DecidableEq, Repr

/-- Embedding of `PrefabRegistry::register_prefab`: `HashMap::insert`
semantics, so a second registration under the same tag overwrites. -/
def PrefabRegistry.register_prefab (r : PrefabRegistry) (name : String)
    (behavior : Nat) : PrefabRegistry :=
  ⟨insertA name behavior r.prefabs⟩

/-- Embedding of `PrefabRegistry::spawn`: indexes the registry by the
descriptor's type tag (a panic — `none` — when absent) and calls the
behavior's `spawn_prfab` with exactly the descriptor's fields. -/
def PrefabRegistry.spawn (r : PrefabRegistry) (prefab_data : PrefabData)
    (entity : Nat) : Option Effect :=
  (lookupA prefab_data.prefab_type r.prefabs).map
    (fun b => Effect.spawnCall b entity prefab_data.fields)

/-- Embedding of `PrefabRegistry::update`: same lookup discipline as `spawn`,
calling `update_prfab` with only the changed fields. -/
def PrefabRegistry.update (r : PrefabRegistry) (prefab_type : String)
    (changed_fields : List (String × PrefabField)) (entity : Nat) :
    Option Effect :=
  (lookupA prefab_type r.prefabs).map
    (fun b => Effect.updateCall b entity changed_fields)

/-- A document lifecycle event (`AssetEvent<Room>`). The Rust handler fetches
the room for the id from the asset store and unwraps; the event here carries
that fetched room directly. Asset ids are modelled as `Nat`. -/
inductive RoomEvent : Type
  | Added (id : Nat) (room : Room)
  | Modified (id : Nat) (room : Room)
  | Unused (id : Nat)
  | Removed (id : Nat)
  | LoadedWithDependencies (id : Nat)
deriving DecidableEq, Repr

/-- One tracked instance: the entity spawned for it and its last-applied
descriptor (the `(Entity, PrefabData)` pairs of `RoomTracker`). -/
abbrev TrackedEntry := Nat × PrefabData

/-- The synchronizer state: the `RoomTracker` map from asset ids to tracked
instances, plus the fresh-entity counter standing in for Bevy's entity
allocator (`commands.spawn_empty()` returns `nextEntity`). -/
structure SysState : Type where
  rooms : List (Nat × List (String × TrackedEntry))
  nextEntity : Nat
deriving DecidableEq, Repr

/-- The `AssetEvent::Added` body of `room_system`: spawn every prefab of the
room on a fresh entity, recording `(name, (entity, descriptor))`. Returns the
tracker entries, the effect trace and the new entity counter; `none` models a
panic (unregistered type tag). -/
def spawnAll (r : PrefabRegistry) (next : Nat) :
    List (String × PrefabData) →
    Option (List (String × TrackedEntry) × List Effect × Nat)
  | [] => some ([], [], next)
  | (id, prefab_data) :: rest => do
    let eff ← r.spawn prefab_data next
    let (entries, effs, next') ← spawnAll r (next + 1) rest
    some ((id, (next, prefab_data)) :: entries, eff :: effs, next')

/-- The per-instance loop of the `AssetEvent::Modified` body: an instance name
already tracked gets an update on its existing entity with the changed-field
diff; an untracked name is spawned on a fresh entity. -/
def syncPrefabs (r : PrefabRegistry)
    (tracked : List (String × TrackedEntry)) (next : Nat) :
    List (String × PrefabData) →
    Option (List (String × TrackedEntry) × List Effect × Nat)
  | [] => some ([], [], next)
  | (prefab_id, new_prefab) :: rest =>
    match lookupA prefab_id tracked with
    | some (entity, old_prefab) => do
      let changed_fields := PrefabData.get_changed_fields old_prefab new_prefab
      let eff ← r.update new_prefab.prefab_type changed_fields entity
      let (entries, effs, next') ← syncPrefabs r tracked next rest
      some ((prefab_id, (entity, new_prefab)) :: entries, eff :: effs, next')
    | none => do
      let eff ← r.spawn new_prefab next
      let (entries, effs, next') ← syncPrefabs r tracked (next + 1) rest
      some ((prefab_id, (next, new_prefab)) :: entries, eff :: effs, next')

/-- The despawn pass of the `AssetEvent::Modified` body: every tracked name
absent from the new key set has its entity despawned. -/
def despawnDropped (tracked : List (String × TrackedEntry))
    (newKeys : List String) : List Effect :=
  (tracked.filter (fun e => ¬ newKeys.contains e.1)).map
    (fun e => Effect.despawn e.2.1)

/-- Embedding of the event dispatch of `room_system` for a single event.
Returns the new state and the trace of effects issued, or `none` for a panic
(`room_tracker.rooms[id]` on an untracked id, or an unregistered type tag). -/
def room_system_step (r : PrefabRegistry) (st : SysState) :
    RoomEvent → Option (SysState × List Effect)
  | RoomEvent.Added id room => do
    let (entries, effs, next') ← spawnAll r st.nextEntity room.prefabs
    some (⟨insertA id entries st.rooms, next'⟩, effs)
  | RoomEvent.Modified id room => do
    let tracked ← lookupA id st.rooms
    let (entries, effs, next') ← syncPrefabs r tracked st.nextEntity room.prefabs
    let deffs := despawnDropped tracked (keysOf entries)
    some (⟨insertA id entries st.rooms, next'⟩, effs ++ deffs)
  | RoomEvent.Unused id =>
    match lookupA id st.rooms with
    | some entries =>
      some (⟨removeA id st.rooms, st.nextEntity⟩,
        entries.map (fun e => Effect.despawn e.2.1))
    | none => some (⟨removeA id st.rooms, st.nextEntity⟩, [])
  | RoomEvent.Removed id =>
    match lookupA id st.rooms with
    | some entries =>
      some (⟨removeA id st.rooms, st.nextEntity⟩,
        entries.map (fun e => Effect.despawn e.2.1))
    | none => some (⟨removeA id st.rooms, st.nextEntity⟩, [])
  | RoomEvent.LoadedWithDependencies _ => some (st, [])

/-- The event loop of `room_system`: process a batch of events in order,
concatenating the effect traces. -/
def room_system (r : PrefabRegistry) (st : SysState) :
    List RoomEvent → Option (SysState × List Effect)
  | [] => some (st, [])
  | ev :: rest => do
    let (st', effs) ← room_system_step r st ev
    let (st'', effs') ← room_system r st' rest
    some (st'', effs ++ effs')

/-- A registry with one behavior (number 0) registered for tag "T", used for
concrete runs of the synchronizer. -/
def regW : PrefabRegistry := ⟨[("T", 0)]⟩

/-- A concrete document: instance "a" of type "T" with field x = 1, and
instance "c" of type "T" with no fields. -/
def docW : Room :=
  ⟨[("a", ⟨"T", [("x", PrefabField.Number 1)]⟩), ("c", ⟨"T", []⟩)]⟩

/-- A revision of `docW`: instance "a" loses its x field, instance "c" is
removed, and instance "b" is added. -/
def docW' : Room := ⟨[("a", ⟨"T", []⟩), ("b", ⟨"T", []⟩)]⟩

/-- A concrete state tracking two one-instance documents under ids 0 and 1,
used for concrete runs of teardown events. -/
def stW : SysState :=
  ⟨[(0, [("a", (0, ⟨"T", []⟩))]), (1, [("b", (1, ⟨"T", []⟩))])], 2⟩

/-- A registry with behavior 0 for tag "T" and behavior 1 for tag "U". -/
def regU : PrefabRegistry := ⟨[("T", 0), ("U", 1)]⟩

/-- A state tracking, under id 0, one instance "a" of type "T" on entity 0. -/
def stU : SysState := ⟨[(0, [("a", (0, ⟨"T", []⟩))])], 1⟩

/-- A revision of the document tracked in `stU` in which instance "a" has
switched to type "U". -/
def roomU : Room := ⟨[("a", ⟨"U", []⟩)]⟩

section Lemmas

variable {κ α : Type} [DecidableEq κ]

theorem lookupA_insertA_self (k : κ) (v : α) (l : List (κ × α)) :
    lookupA k (insertA k v l) = some v := by
  simp [insertA, lookupA]

theorem lookupA_insertA_ne (k k' : κ) (v : α) (l : List (κ × α))
    (h : k' ≠ k) : lookupA k (insertA k' v l) = lookupA k l := by
  induction l with
  | nil => simp [insertA, lookupA, h]
  | cons p rest ih =>
    obtain ⟨pk, pv⟩ := p
    by_cases hpk : pk = k'
    · subst hpk
      simp only [insertA, List.filter] at ih ⊢
      simp_all [lookupA, Ne.symm h]
    · by_cases hk : pk = k
      · subst hk
        simp_all [insertA, lookupA, List.filter, h, hpk]
      · simp only [insertA, List.filter] at ih ⊢
        simp_all [lookupA, h, hpk, hk]

theorem lookupA_removeA_self (k : κ) (l : List (κ × α)) :
    lookupA k (removeA k l) = none := by
  induction l with
  | nil => rfl
  | cons p rest ih =>
    obtain ⟨pk, pv⟩ := p
    by_cases hpk : pk = k
    · simp [removeA, List.filter, hpk] at ih ⊢
      exact ih
    · simpa [removeA, List.filter, hpk, lookupA] using ih

theorem lookupA_removeA_ne (k k' : κ) (l : List (κ × α))
    (h : k' ≠ k) : lookupA k (removeA k' l) = lookupA k l := by
  induction l with
  | nil => rfl
  | cons p rest ih =>
    obtain ⟨pk, pv⟩ := p
    by_cases hpk : pk = k'
    · subst hpk
      simp only [removeA, List.filter] at ih ⊢
      simp_all [lookupA, Ne.symm h]
    · by_cases hk : pk = k
      · subst hk
        simp_all [removeA, lookupA, List.filter, hpk]
      · simp only [removeA, List.filter] at ih ⊢
        simp_all [lookupA, hpk, hk]

theorem removeA_of_lookupA_none (k : κ) (l : List (κ × α))
    (h : lookupA k l = none) : removeA k l = l := by
  induction l with
  | nil => rfl
  | cons p rest ih =>
    obtain ⟨pk, pv⟩ := p
    by_cases hpk : pk = k
    · simp [lookupA, hpk] at h
    · simp only [lookupA, if_neg hpk] at h
      unfold removeA at ih ⊢
      rw [List.filter_cons_of_pos (by simpa using hpk), ih h]

theorem lookupA_eq_some_of_mem_nodup {k : κ} {v : α}
    {l : List (κ × α)} (hnd : (keysOf l).Nodup) (hmem : (k, v) ∈ l) :
    lookupA k l = some v := by
  induction l with
  | nil => simp at hmem
  | cons p rest ih =>
    obtain ⟨pk, pv⟩ := p
    simp only [keysOf, List.map_cons, List.nodup_cons] at hnd
    rcases List.mem_cons.mp hmem with heq | hmem'
    · injection heq with h1 h2
      subst h1
      subst h2
      simp [lookupA]
    · have hne : pk ≠ k := fun hcontra => hnd.1 (by
        rw [hcontra]
        exact List.mem_map.mpr ⟨(k, v), hmem', rfl⟩)
      simp only [lookupA, if_neg hne]
      exact ih hnd.2 hmem'

theorem mem_of_lookupA_eq_some {k : κ} {v : α} {l : List (κ × α)}
    (h : lookupA k l = some v) : (k, v) ∈ l := by
  induction l with
  | nil => simp [lookupA] at h
  | cons p rest ih =>
    obtain ⟨pk, pv⟩ := p
    by_cases hpk : pk = k
    · subst hpk
      have h' : pv = v := by simpa [lookupA] using h
      subst h'
      exact List.mem_cons_self _ _
    · simp only [lookupA, if_neg hpk] at h
      exact List.mem_cons_of_mem _ (ih h)

theorem lookupA_cons_self (k : κ) (v : α) (l : List (κ × α)) :
    lookupA k ((k, v) :: l) = some v := by
  simp [lookupA]

theorem lookupA_cons_ne {k k' : κ} (h : k' ≠ k) (v : α) (l : List (κ × α)) :
    lookupA k ((k', v) :: l) = lookupA k l := by
  simp [lookupA, h]

theorem mem_of_mem_filterMap_if (P : κ × α → Prop) [DecidablePred P]
    {l : List (κ × α)} {kv : κ × α}
    (h : kv ∈ l.filterMap (fun kf => if P kf then some kf else none)) :
    kv ∈ l := by
  rcases List.mem_filterMap.mp h with ⟨a, ha, hfa⟩
  by_cases hpa : P a
  · simp only [if_pos hpa, Option.some.injEq] at hfa
    exact hfa ▸ ha
  · simp [if_neg hpa] at hfa

theorem lookupA_filterMap_if (P : κ × α → Prop) [DecidablePred P]
    {l : List (κ × α)} (hnd : (keysOf l).Nodup) (k : κ) (v : α) :
    lookupA k (l.filterMap (fun kf => if P kf then some kf else none)) =
        some v ↔
      (lookupA k l = some v ∧ P (k, v)) := by
  induction l with
  | nil => simp [lookupA]
  | cons q rest ih =>
    obtain ⟨qk, qv⟩ := q
    simp only [keysOf, List.map_cons, List.nodup_cons] at hnd
    have ihr := ih hnd.2
    by_cases hq : P (qk, qv)
    · have hcons : List.filterMap (fun kf => if P kf then some kf else none)
          ((qk, qv) :: rest) =
          (qk, qv) ::
            List.filterMap (fun kf => if P kf then some kf else none) rest :=
        by simp [List.filterMap_cons, hq]
      rw [hcons]
      by_cases hk : qk = k
      · subst hk
        rw [lookupA_cons_self, lookupA_cons_self]
        constructor
        · intro h1
          injection h1 with h2
          exact ⟨h2 ▸ rfl, h2 ▸ hq⟩
        · rintro ⟨h1, _⟩
          exact h1
      · rw [lookupA_cons_ne hk, lookupA_cons_ne hk]
        exact ihr
    · have hcons : List.filterMap (fun kf => if P kf then some kf else none)
          ((qk, qv) :: rest) =
          List.filterMap (fun kf => if P kf then some kf else none) rest :=
        by simp [List.filterMap_cons, hq]
      rw [hcons]
      by_cases hk : qk = k
      · subst hk
        rw [lookupA_cons_self]
        constructor
        · intro hlk
          exact absurd (List.mem_map.mpr ⟨(qk, v),
            mem_of_mem_filterMap_if P (mem_of_lookupA_eq_some hlk), rfl⟩)
            hnd.1
        · rintro ⟨h1, hP⟩
          injection h1 with h2
          exact absurd hP (h2 ▸ hq)
      · rw [lookupA_cons_ne hk]
        exact ihr

theorem get_changed_fields_eq_filterMap (old_prefab new_prefab : PrefabData)
    (hty : old_prefab.prefab_type = new_prefab.prefab_type) :
    PrefabData.get_changed_fields old_prefab new_prefab =
      new_prefab.fields.filterMap (fun kf =>
        if lookupA kf.1 old_prefab.fields ≠ some kf.2 then some kf
        else none) := by
  unfold PrefabData.get_changed_fields
  rw [if_neg (by simp [hty])]
  refine congrArg (fun f => new_prefab.fields.filterMap f)
    (funext fun kf => ?_)
  cases h : lookupA kf.1 old_prefab.fields with
  | none => simp [h]
  | some w =>
    by_cases hw : w = kf.2
    · simp [h, hw]
    · simp [h, hw]

theorem spawn_eq_some_elim {r : PrefabRegistry} {pd : PrefabData}
    {entity : Nat} {eff : Effect} (h : r.spawn pd entity = some eff) :
    ∃ b, lookupA pd.prefab_type r.prefabs = some b ∧
      eff = Effect.spawnCall b entity pd.fields := by
  unfold PrefabRegistry.spawn at h
  cases hl : lookupA pd.prefab_type r.prefabs with
  | none => rw [hl] at h; simp at h
  | some b =>
    rw [hl] at h
    simp only [Option.map] at h
    exact ⟨b, rfl, (Option.some.inj h).symm⟩

theorem update_eq_some_elim {r : PrefabRegistry} {ty : String}
    {ch : List (String × PrefabField)} {entity : Nat} {eff : Effect}
    (h : r.update ty ch entity = some eff) :
    ∃ b, lookupA ty r.prefabs = some b ∧
      eff = Effect.updateCall b entity ch := by
  unfold PrefabRegistry.update at h
  cases hl : lookupA ty r.prefabs with
  | none => rw [hl] at h; simp at h
  | some b =>
    rw [hl] at h
    simp only [Option.map] at h
    exact ⟨b, rfl, (Option.some.inj h).symm⟩

theorem spawnAll_cons_elim {r : PrefabRegistry} {next : Nat} {name : String}
    {pd : PrefabData} {ps : List (String × PrefabData)}
    {out : List (String × TrackedEntry) × List Effect × Nat}
    (h : spawnAll r next ((name, pd) :: ps) = some out) :
    ∃ eff entries effs next',
      r.spawn pd next = some eff ∧
      spawnAll r (next + 1) ps = some (entries, effs, next') ∧
      out = ((name, (next, pd)) :: entries, eff :: effs, next') := by
  simp only [spawnAll, Option.bind_eq_bind, Option.bind_eq_some] at h
  obtain ⟨eff, heff, ⟨entries, effs, next'⟩, hrest, hout⟩ := h
  exact ⟨eff, entries, effs, next', heff, hrest, (Option.some.inj hout).symm⟩

theorem syncPrefabs_cons_tracked_elim {r : PrefabRegistry}
    {tracked : List (String × TrackedEntry)} {next : Nat} {name : String}
    {new_prefab : PrefabData} {ps : List (String × PrefabData)}
    {entity : Nat} {old_prefab : PrefabData}
    {out : List (String × TrackedEntry) × List Effect × Nat}
    (htr : lookupA name tracked = some (entity, old_prefab))
    (h : syncPrefabs r tracked next ((name, new_prefab) :: ps) = some out) :
    ∃ eff entries effs next',
      r.update new_prefab.prefab_type
        (PrefabData.get_changed_fields old_prefab new_prefab) entity =
        some eff ∧
      syncPrefabs r tracked next ps = some (entries, effs, next') ∧
      out = ((name, (entity, new_prefab)) :: entries, eff :: effs, next') := by
  rw [syncPrefabs, htr] at h
  simp only [Option.bind_eq_bind, Option.bind_eq_some] at h
  obtain ⟨eff, heff, ⟨entries, effs, next'⟩, hrest, hout⟩ := h
  exact ⟨eff, entries, effs, next', heff, hrest, (Option.some.inj hout).symm⟩

theorem syncPrefabs_cons_untracked_elim {r : PrefabRegistry}
    {tracked : List (String × TrackedEntry)} {next : Nat} {name : String}
    {new_prefab : PrefabData} {ps : List (String × PrefabData)}
    {out : List (String × TrackedEntry) × List Effect × Nat}
    (htr : lookupA name tracked = none)
    (h : syncPrefabs r tracked next ((name, new_prefab) :: ps) = some out) :
    ∃ eff entries effs next',
      r.spawn new_prefab next = some eff ∧
      syncPrefabs r tracked (next + 1) ps = some (entries, effs, next') ∧
      out = ((name, (next, new_prefab)) :: entries, eff :: effs, next') := by
  rw [syncPrefabs, htr] at h
  simp only [Option.bind_eq_bind, Option.bind_eq_some] at h
  obtain ⟨eff, heff, ⟨entries, effs, next'⟩, hrest, hout⟩ := h
  exact ⟨eff, entries, effs, next', heff, hrest, (Option.some.inj hout).symm⟩

theorem spawnAll_cons_some {r : PrefabRegistry} {next next' : Nat}
    {name : String} {pd : PrefabData} {ps : List (String × PrefabData)}
    {entries : List (String × TrackedEntry)} {effs : List Effect}
    (h : spawnAll r next ((name, pd) :: ps) = some (entries, effs, next')) :
    ∃ eff entries' effs',
      r.spawn pd next = some eff ∧
      spawnAll r (next + 1) ps = some (entries', effs', next') ∧
      entries = (name, (next, pd)) :: entries' ∧
      effs = eff :: effs' := by
  obtain ⟨eff, e2, f2, n2, hsp, hrest, hout⟩ := spawnAll_cons_elim h
  rw [Prod.mk.injEq, Prod.mk.injEq] at hout
  obtain ⟨h1, h2, h3⟩ := hout
  subst h3
  exact ⟨eff, e2, f2, hsp, hrest, h1, h2⟩

theorem syncPrefabs_cons_tracked_some {r : PrefabRegistry}
    {tracked : List (String × TrackedEntry)} {next next' : Nat}
    {name : String} {new_prefab : PrefabData}
    {ps : List (String × PrefabData)} {entity : Nat}
    {old_prefab : PrefabData} {entries : List (String × TrackedEntry)}
    {effs : List Effect}
    (htr : lookupA name tracked = some (entity, old_prefab))
    (h : syncPrefabs r tracked next ((name, new_prefab) :: ps) =
      some (entries, effs, next')) :
    ∃ eff entries' effs',
      r.update new_prefab.prefab_type
        (PrefabData.get_changed_fields old_prefab new_prefab) entity =
        some eff ∧
      syncPrefabs r tracked next ps = some (entries', effs', next') ∧
      entries = (name, (entity, new_prefab)) :: entries' ∧
      effs = eff :: effs' := by
  obtain ⟨eff, e2, f2, n2, hup, hrest, hout⟩ :=
    syncPrefabs_cons_tracked_elim htr h
  rw [Prod.mk.injEq, Prod.mk.injEq] at hout
  obtain ⟨h1, h2, h3⟩ := hout
  subst h3
  exact ⟨eff, e2, f2, hup, hrest, h1, h2⟩

theorem syncPrefabs_cons_untracked_some {r : PrefabRegistry}
    {tracked : List (String × TrackedEntry)} {next next' : Nat}
    {name : String} {new_prefab : PrefabData}
    {ps : List (String × PrefabData)}
    {entries : List (String × TrackedEntry)} {effs : List Effect}
    (htr : lookupA name tracked = none)
    (h : syncPrefabs r tracked next ((name, new_prefab) :: ps) =
      some (entries, effs, next')) :
    ∃ eff entries' effs',
      r.spawn new_prefab next = some eff ∧
      syncPrefabs r tracked (next + 1) ps = some (entries', effs', next') ∧
      entries = (name, (next, new_prefab)) :: entries' ∧
      effs = eff :: effs' := by
  obtain ⟨eff, e2, f2, n2, hsp, hrest, hout⟩ :=
    syncPrefabs_cons_untracked_elim htr h
  rw [Prod.mk.injEq, Prod.mk.injEq] at hout
  obtain ⟨h1, h2, h3⟩ := hout
  subst h3
  exact ⟨eff, e2, f2, hsp, hrest, h1, h2⟩

theorem spawnAll_nil_some {r : PrefabRegistry} {next next' : Nat}
    {entries : List (String × TrackedEntry)} {effs : List Effect}
    (h : spawnAll r next [] = some (entries, effs, next')) :
    entries = [] ∧ effs = [] ∧ next' = next := by
  simp only [spawnAll, Option.some.injEq, Prod.mk.injEq] at h
  exact ⟨h.1.symm, h.2.1.symm, h.2.2.symm⟩

theorem syncPrefabs_nil_some {r : PrefabRegistry}
    {tracked : List (String × TrackedEntry)} {next next' : Nat}
    {entries : List (String × TrackedEntry)} {effs : List Effect}
    (h : syncPrefabs r tracked next [] = some (entries, effs, next')) :
    entries = [] ∧ effs = [] ∧ next' = next := by
  simp only [syncPrefabs, Option.some.injEq, Prod.mk.injEq] at h
  exact ⟨h.1.symm, h.2.1.symm, h.2.2.symm⟩

theorem spawnAll_keys {r : PrefabRegistry} {ps : List (String × PrefabData)} :
    ∀ {next next' : Nat} {entries : List (String × TrackedEntry)}
      {effs : List Effect},
      spawnAll r next ps = some (entries, effs, next') →
      keysOf entries = keysOf ps := by
  induction ps with
  | nil =>
    intro next next' entries effs h
    obtain ⟨rfl, -, -⟩ := spawnAll_nil_some h
    rfl
  | cons q rest ih =>
    intro next next' entries effs h
    obtain ⟨qn, qd⟩ := q
    obtain ⟨eff, entries', effs', hsp, hrest, hent, heff⟩ :=
      spawnAll_cons_some h
    subst hent
    simp only [keysOf, List.map_cons, List.cons.injEq]
    exact ⟨trivial, ih hrest⟩

theorem spawnAll_lookup {r : PrefabRegistry}
    {ps : List (String × PrefabData)} {name : String} {pd : PrefabData} :
    ∀ {next next' : Nat} {entries : List (String × TrackedEntry)}
      {effs : List Effect},
      spawnAll r next ps = some (entries, effs, next') →
      lookupA name ps = some pd →
      ∃ e, lookupA name entries = some (e, pd) := by
  induction ps with
  | nil =>
    intro next next' entries effs h hlk
    simp [lookupA] at hlk
  | cons q rest ih =>
    intro next next' entries effs h hlk
    obtain ⟨qn, qd⟩ := q
    obtain ⟨eff, entries', effs', hsp, hrest, hent, heff⟩ :=
      spawnAll_cons_some h
    subst hent
    by_cases hq : qn = name
    · subst hq
      rw [lookupA_cons_self] at hlk
      rw [lookupA_cons_self]
      exact ⟨next, by rw [Option.some.inj hlk]⟩
    · rw [lookupA_cons_ne hq] at hlk
      rw [lookupA_cons_ne hq]
      exact ih hrest hlk

theorem spawnAll_entities {r : PrefabRegistry}
    {ps : List (String × PrefabData)} :
    ∀ {next next' : Nat} {entries : List (String × TrackedEntry)}
      {effs : List Effect},
      spawnAll r next ps = some (entries, effs, next') →
      entries.map (fun e => e.2.1) = List.range' next ps.length := by
  induction ps with
  | nil =>
    intro next next' entries effs h
    obtain ⟨rfl, -, -⟩ := spawnAll_nil_some h
    rfl
  | cons q rest ih =>
    intro next next' entries effs h
    obtain ⟨qn, qd⟩ := q
    obtain ⟨eff, entries', effs', hsp, hrest, hent, heff⟩ :=
      spawnAll_cons_some h
    subst hent
    simp only [List.map_cons, List.length_cons, List.range'_succ,
      List.cons.injEq]
    exact ⟨trivial, ih hrest⟩

theorem spawnAll_next {r : PrefabRegistry}
    {ps : List (String × PrefabData)} :
    ∀ {next next' : Nat} {entries : List (String × TrackedEntry)}
      {effs : List Effect},
      spawnAll r next ps = some (entries, effs, next') →
      next' = next + ps.length := by
  induction ps with
  | nil =>
    intro next next' entries effs h
    obtain ⟨-, -, rfl⟩ := spawnAll_nil_some h
    rfl
  | cons q rest ih =>
    intro next next' entries effs h
    obtain ⟨qn, qd⟩ := q
    obtain ⟨eff, entries', effs', hsp, hrest, hent, heff⟩ :=
      spawnAll_cons_some h
    rw [ih hrest]
    simp only [List.length_cons]
    omega

theorem spawnAll_despawn_trace {r : PrefabRegistry}
    {ps : List (String × PrefabData)} :
    ∀ {next next' : Nat} {entries : List (String × TrackedEntry)}
      {effs : List Effect},
      spawnAll r next ps = some (entries, effs, next') →
      entries.map (fun e => Effect.despawn e.2.1) =
        effs.filterMap (fun eff => match eff with
          | Effect.spawnCall _ e _ => some (Effect.despawn e)
          | _ => none) := by
  induction ps with
  | nil =>
    intro next next' entries effs h
    obtain ⟨rfl, rfl, -⟩ := spawnAll_nil_some h
    rfl
  | cons q rest ih =>
    intro next next' entries effs h
    obtain ⟨qn, qd⟩ := q
    obtain ⟨eff, entries', effs', hsp, hrest, hent, heff⟩ :=
      spawnAll_cons_some h
    subst hent
    subst heff
    obtain ⟨b, -, rfl⟩ := spawn_eq_some_elim hsp
    simp only [List.map_cons, List.filterMap_cons]
    exact congrArg _ (ih hrest)

theorem syncPrefabs_keys {r : PrefabRegistry}
    {tracked : List (String × TrackedEntry)}
    {ps : List (String × PrefabData)} :
    ∀ {next next' : Nat} {entries : List (String × TrackedEntry)}
      {effs : List Effect},
      syncPrefabs r tracked next ps = some (entries, effs, next') →
      keysOf entries = keysOf ps := by
  induction ps with
  | nil =>
    intro next next' entries effs h
    obtain ⟨rfl, -, -⟩ := syncPrefabs_nil_some h
    rfl
  | cons q rest ih =>
    intro next next' entries effs h
    obtain ⟨qn, qd⟩ := q
    cases hq : lookupA qn tracked with
    | some ep =>
      obtain ⟨entity, old_prefab⟩ := ep
      obtain ⟨eff, entries', effs', hup, hrest, hent, heff⟩ :=
        syncPrefabs_cons_tracked_some hq h
      subst hent
      simp only [keysOf, List.map_cons, List.cons.injEq]
      exact ⟨trivial, ih hrest⟩
    | none =>
      obtain ⟨eff, entries', effs', hsp, hrest, hent, heff⟩ :=
        syncPrefabs_cons_untracked_some hq h
      subst hent
      simp only [keysOf, List.map_cons, List.cons.injEq]
      exact ⟨trivial, ih hrest⟩

theorem syncPrefabs_tracked_update {r : PrefabRegistry}
    {tracked : List (String × TrackedEntry)}
    {ps : List (String × PrefabData)} {name : String}
    {new_prefab old_prefab : PrefabData} {entity : Nat} :
    ∀ {next next' : Nat} {entries : List (String × TrackedEntry)}
      {effs : List Effect},
      syncPrefabs r tracked next ps = some (entries, effs, next') →
      lookupA name ps = some new_prefab →
      lookupA name tracked = some (entity, old_prefab) →
      lookupA name entries = some (entity, new_prefab) ∧
        ∃ b, lookupA new_prefab.prefab_type r.prefabs = some b ∧
          Effect.updateCall b entity
            (PrefabData.get_changed_fields old_prefab new_prefab) ∈ effs := by
  induction ps with
  | nil =>
    intro next next' entries effs h hlk htr
    simp [lookupA] at hlk
  | cons q rest ih =>
    intro next next' entries effs h hlk htr
    obtain ⟨qn, qd⟩ := q
    by_cases hqn : qn = name
    · subst hqn
      rw [lookupA_cons_self] at hlk
      have hqd : qd = new_prefab := Option.some.inj hlk
      subst hqd
      obtain ⟨eff, entries', effs', hup, hrest, hent, heff⟩ :=
        syncPrefabs_cons_tracked_some htr h
      subst hent
      subst heff
      obtain ⟨b, hb, rfl⟩ := update_eq_some_elim hup
      exact ⟨lookupA_cons_self _ _ _,
        b, hb, List.mem_cons_self _ _⟩
    · rw [lookupA_cons_ne hqn] at hlk
      cases hq : lookupA qn tracked with
      | some ep =>
        obtain ⟨entity', old_prefab'⟩ := ep
        obtain ⟨eff, entries', effs', hup, hrest, hent, heff⟩ :=
          syncPrefabs_cons_tracked_some hq h
        subst hent
        subst heff
        obtain ⟨hl, b, hb, hmem⟩ := ih hrest hlk htr
        exact ⟨by rw [lookupA_cons_ne hqn]; exact hl,
          b, hb, List.mem_cons_of_mem _ hmem⟩
      | none =>
        obtain ⟨eff, entries', effs', hsp, hrest, hent, heff⟩ :=
          syncPrefabs_cons_untracked_some hq h
        subst hent
        subst heff
        obtain ⟨hl, b, hb, hmem⟩ := ih hrest hlk htr
        exact ⟨by rw [lookupA_cons_ne hqn]; exact hl,
          b, hb, List.mem_cons_of_mem _ hmem⟩

theorem syncPrefabs_no_despawn {r : PrefabRegistry}
    {tracked : List (String × TrackedEntry)}
    {ps : List (String × PrefabData)} :
    ∀ {next next' : Nat} {entries : List (String × TrackedEntry)}
      {effs : List Effect},
      syncPrefabs r tracked next ps = some (entries, effs, next') →
      ∀ e, Effect.despawn e ∉ effs := by
  induction ps with
  | nil =>
    intro next next' entries effs h e
    obtain ⟨-, rfl, -⟩ := syncPrefabs_nil_some h
    simp
  | cons q rest ih =>
    intro next next' entries effs h e
    obtain ⟨qn, qd⟩ := q
    cases hq : lookupA qn tracked with
    | some ep =>
      obtain ⟨entity, old_prefab⟩ := ep
      obtain ⟨eff, entries', effs', hup, hrest, hent, heff⟩ :=
        syncPrefabs_cons_tracked_some hq h
      subst heff
      obtain ⟨b, -, rfl⟩ := update_eq_some_elim hup
      intro hmem
      rcases List.mem_cons.mp hmem with hc | hc
      · exact Effect.noConfusion hc
      · exact ih hrest e hc
    | none =>
      obtain ⟨eff, entries', effs', hsp, hrest, hent, heff⟩ :=
        syncPrefabs_cons_untracked_some hq h
      subst heff
      obtain ⟨b, -, rfl⟩ := spawn_eq_some_elim hsp
      intro hmem
      rcases List.mem_cons.mp hmem with hc | hc
      · exact Effect.noConfusion hc
      · exact ih hrest e hc

theorem syncPrefabs_spawn_ge {r : PrefabRegistry}
    {tracked : List (String × TrackedEntry)}
    {ps : List (String × PrefabData)} :
    ∀ {next next' : Nat} {entries : List (String × TrackedEntry)}
      {effs : List Effect} {b e : Nat}
      {f : List (String × PrefabField)},
      syncPrefabs r tracked next ps = some (entries, effs, next') →
      Effect.spawnCall b e f ∈ effs → next ≤ e := by
  induction ps with
  | nil =>
    intro next next' entries effs b e f h hmem
    obtain ⟨-, rfl, -⟩ := syncPrefabs_nil_some h
    simp at hmem
  | cons q rest ih =>
    intro next next' entries effs b e f h hmem
    obtain ⟨qn, qd⟩ := q
    cases hq : lookupA qn tracked with
    | some ep =>
      obtain ⟨entity, old_prefab⟩ := ep
      obtain ⟨eff, entries', effs', hup, hrest, hent, heff⟩ :=
        syncPrefabs_cons_tracked_some hq h
      subst heff
      obtain ⟨b', -, rfl⟩ := update_eq_some_elim hup
      rcases List.mem_cons.mp hmem with hc | hc
      · exact Effect.noConfusion hc
      · exact ih hrest hc
    | none =>
      obtain ⟨eff, entries', effs', hsp, hrest, hent, heff⟩ :=
        syncPrefabs_cons_untracked_some hq h
      subst heff
      obtain ⟨b', -, rfl⟩ := spawn_eq_some_elim hsp
      rcases List.mem_cons.mp hmem with hc | hc
      · injection hc with h1 h2 h3
        omega
      · exact Nat.le_of_succ_le (ih hrest hc)

theorem lookupA_eq_none_iff {k : κ} {l : List (κ × α)} :
    lookupA k l = none ↔ k ∉ keysOf l := by
  induction l with
  | nil => simp [lookupA, keysOf]
  | cons q rest ih =>
    obtain ⟨qk, qv⟩ := q
    by_cases hq : qk = k
    · subst hq
      simp [lookupA, keysOf]
    · rw [lookupA_cons_ne hq, ih]
      simp only [keysOf, List.map_cons, List.mem_cons, not_or]
      constructor
      · intro h
        exact ⟨fun hc => hq hc.symm, h⟩
      · intro h
        exact h.2

theorem countP_eq_one_of_unique {β : Type} {l : List β} {p : β → Bool}
    (hnd : l.Nodup) {a : β} (ha : a ∈ l) (hpa : p a = true)
    (huniq : ∀ b ∈ l, p b = true → b = a) : l.countP p = 1 := by
  induction l with
  | nil => simp at ha
  | cons q rest ih =>
    rw [List.nodup_cons] at hnd
    rcases List.mem_cons.mp ha with rfl | ha'
    · rw [List.countP_cons_of_pos _ _ hpa]
      have h0 : rest.countP p = 0 := by
        rw [List.countP_eq_zero]
        intro b hb hpb
        have hba : b = a := huniq b (List.mem_cons_of_mem _ hb) hpb
        subst hba
        exact hnd.1 hb
      rw [h0]
    · have hq : p q = false := by
        by_contra hc
        rw [Bool.not_eq_false] at hc
        have hqa : q = a := huniq q (List.mem_cons_self _ _) hc
        subst hqa
        exact hnd.1 ha'
      rw [List.countP_cons_of_neg _ _ (by simp [hq])]
      exact ih hnd.2 ha'
        (fun b hb hpb => huniq b (List.mem_cons_of_mem _ hb) hpb)

theorem lookupA_same_entity {tracked : List (String × TrackedEntry)}
    (hent : (tracked.map (fun e => e.2.1)).Nodup)
    {n1 n2 : String} {e : Nat} {p1 p2 : PrefabData}
    (h1 : lookupA n1 tracked = some (e, p1))
    (h2 : lookupA n2 tracked = some (e, p2)) : n1 = n2 := by
  have hm1 := mem_of_lookupA_eq_some h1
  have hm2 := mem_of_lookupA_eq_some h2
  have heq := List.inj_on_of_nodup_map hent hm1 hm2 rfl
  exact congrArg Prod.fst heq

theorem syncPrefabs_spawn_countP {r : PrefabRegistry}
    {tracked : List (String × TrackedEntry)}
    {ps : List (String × PrefabData)} :
    ∀ {next next' : Nat} {entries : List (String × TrackedEntry)}
      {effs : List Effect},
      syncPrefabs r tracked next ps = some (entries, effs, next') →
      effs.countP Effect.isSpawn =
        ps.countP (fun p => (lookupA p.1 tracked).isNone) := by
  induction ps with
  | nil =>
    intro next next' entries effs h
    obtain ⟨-, rfl, -⟩ := syncPrefabs_nil_some h
    simp
  | cons q rest ih =>
    intro next next' entries effs h
    obtain ⟨qn, qd⟩ := q
    cases hq : lookupA qn tracked with
    | some ep =>
      obtain ⟨entity, old_prefab⟩ := ep
      obtain ⟨eff, entries', effs', hup, hrest, hent2, heff⟩ :=
        syncPrefabs_cons_tracked_some hq h
      subst heff
      obtain ⟨b, -, rfl⟩ := update_eq_some_elim hup
      rw [List.countP_cons_of_neg _ _ (by simp [Effect.isSpawn]),
        List.countP_cons_of_neg _ _ (by simp [hq])]
      exact ih hrest
    | none =>
      obtain ⟨eff, entries', effs', hsp, hrest, hent2, heff⟩ :=
        syncPrefabs_cons_untracked_some hq h
      subst heff
      obtain ⟨b, -, rfl⟩ := spawn_eq_some_elim hsp
      rw [List.countP_cons_of_pos _ _ (by simp [Effect.isSpawn]),
        List.countP_cons_of_pos _ _ (by simp [hq])]
      rw [ih hrest]

theorem syncPrefabs_update_countP {r : PrefabRegistry}
    {tracked : List (String × TrackedEntry)}
    {ps : List (String × PrefabData)} (entity : Nat) :
    ∀ {next next' : Nat} {entries : List (String × TrackedEntry)}
      {effs : List Effect},
      syncPrefabs r tracked next ps = some (entries, effs, next') →
      effs.countP (Effect.isUpdateOn entity) =
        ps.countP (fun p => match lookupA p.1 tracked with
          | some q => decide (q.1 = entity)
          | none => false) := by
  induction ps with
  | nil =>
    intro next next' entries effs h
    obtain ⟨-, rfl, -⟩ := syncPrefabs_nil_some h
    simp
  | cons q rest ih =>
    intro next next' entries effs h
    obtain ⟨qn, qd⟩ := q
    cases hq : lookupA qn tracked with
    | some ep =>
      obtain ⟨e0, old_prefab⟩ := ep
      obtain ⟨eff, entries', effs', hup, hrest, hent2, heff⟩ :=
        syncPrefabs_cons_tracked_some hq h
      subst heff
      obtain ⟨b, -, rfl⟩ := update_eq_some_elim hup
      rw [List.countP_cons, List.countP_cons, ih hrest]
      have hpred : (Effect.isUpdateOn entity)
          (Effect.updateCall b e0
            (PrefabData.get_changed_fields old_prefab qd)) =
          ((fun (p : String × PrefabData) =>
            match lookupA p.1 tracked with
            | some q => decide (q.1 = entity)
            | none => false) (qn, qd)) := by
        simp only [Effect.isUpdateOn, hq]
      rw [hpred]
    | none =>
      obtain ⟨eff, entries', effs', hsp, hrest, hent2, heff⟩ :=
        syncPrefabs_cons_untracked_some hq h
      subst heff
      obtain ⟨b, -, rfl⟩ := spawn_eq_some_elim hsp
      rw [List.countP_cons_of_neg _ _ (by simp [Effect.isUpdateOn]),
        List.countP_cons_of_neg _ _ (by simp [hq])]
      exact ih hrest

theorem syncPrefabs_countP_isDespawn {r : PrefabRegistry}
    {tracked : List (String × TrackedEntry)}
    {ps : List (String × PrefabData)} {next next' : Nat}
    {entries : List (String × TrackedEntry)} {effs : List Effect}
    (h : syncPrefabs r tracked next ps = some (entries, effs, next')) :
    effs.countP Effect.isDespawn = 0 := by
  rw [List.countP_eq_zero]
  intro eff heff
  cases eff with
  | spawnCall b e f => simp [Effect.isDespawn]
  | updateCall b e f => simp [Effect.isDespawn]
  | despawn e => exact absurd heff (syncPrefabs_no_despawn h e)

theorem despawnDropped_mem {tracked : List (String × TrackedEntry)}
    {ks : List String} {eff : Effect}
    (h : eff ∈ despawnDropped tracked ks) :
    ∃ name e pd, eff = Effect.despawn e ∧ (name, (e, pd)) ∈ tracked ∧
      ks.contains name = false := by
  unfold despawnDropped at h
  rcases List.mem_map.mp h with ⟨q, hq, rfl⟩
  rcases List.mem_filter.mp hq with ⟨hqm, hqf⟩
  obtain ⟨name, e, pd⟩ := q
  refine ⟨name, e, pd, rfl, hqm, ?_⟩
  simpa using hqf

theorem despawnDropped_countP_isSpawn
    (tracked : List (String × TrackedEntry)) (ks : List String) :
    (despawnDropped tracked ks).countP Effect.isSpawn = 0 := by
  rw [List.countP_eq_zero]
  intro eff heff
  obtain ⟨n, e, pd, rfl, -, -⟩ := despawnDropped_mem heff
  simp [Effect.isSpawn]

theorem despawnDropped_countP_isUpdateOn
    (tracked : List (String × TrackedEntry)) (ks : List String)
    (entity : Nat) :
    (despawnDropped tracked ks).countP (Effect.isUpdateOn entity) = 0 := by
  rw [List.countP_eq_zero]
  intro eff heff
  obtain ⟨n, e, pd, rfl, -, -⟩ := despawnDropped_mem heff
  simp [Effect.isUpdateOn]

theorem despawnDropped_countP_isDespawn
    (tracked : List (String × TrackedEntry)) (ks : List String) :
    (despawnDropped tracked ks).countP Effect.isDespawn =
      (keysOf tracked).countP (fun n => !(ks.contains n)) := by
  unfold despawnDropped
  rw [List.countP_map]
  have hconst : (Effect.isDespawn ∘
      fun (e : String × TrackedEntry) => Effect.despawn e.2.1) =
      fun _ => true :=
    funext fun e => rfl
  rw [hconst, List.countP_true, ← List.countP_eq_length_filter,
    keysOf, List.countP_map]
  apply List.countP_congr
  intro x hx
  simp

theorem despawn_not_mem_of_kept {tracked : List (String × TrackedEntry)}
    {ks : List String} {name : String} {entity : Nat} {pd : PrefabData}
    (hent : (tracked.map (fun e => e.2.1)).Nodup)
    (htr : lookupA name tracked = some (entity, pd))
    (hname : name ∈ ks) :
    Effect.despawn entity ∉ despawnDropped tracked ks := by
  intro h
  obtain ⟨name', e', pd', heq, hmem, hks⟩ := despawnDropped_mem h
  injection heq with he
  subst he
  have hmem0 : (name, (entity, pd)) ∈ tracked := mem_of_lookupA_eq_some htr
  have heq2 := List.inj_on_of_nodup_map hent hmem0 hmem rfl
  injection heq2 with hn _
  subst hn
  have : ks.contains name = true := by simpa using hname
  rw [this] at hks
  exact Bool.noConfusion hks

theorem step_added_elim {r : PrefabRegistry} {st : SysState} {id : Nat}
    {room : Room} {st' : SysState} {effs : List Effect}
    (h : room_system_step r st (RoomEvent.Added id room) = some (st', effs)) :
    ∃ entries next',
      spawnAll r st.nextEntity room.prefabs = some (entries, effs, next') ∧
      st' = ⟨insertA id entries st.rooms, next'⟩ := by
  simp only [room_system_step, Option.bind_eq_bind, Option.bind_eq_some] at h
  obtain ⟨⟨entries, effs0, next'⟩, hsp, hout⟩ := h
  have hout' := Option.some.inj hout
  rw [Prod.mk.injEq] at hout'
  rw [← hout'.2]
  exact ⟨entries, next', hsp, hout'.1.symm⟩

theorem step_modified_elim {r : PrefabRegistry} {st : SysState} {id : Nat}
    {room : Room} {st' : SysState} {effs : List Effect}
    {tracked : List (String × TrackedEntry)}
    (htr : lookupA id st.rooms = some tracked)
    (h : room_system_step r st (RoomEvent.Modified id room) =
      some (st', effs)) :
    ∃ entries seffs next',
      syncPrefabs r tracked st.nextEntity room.prefabs =
        some (entries, seffs, next') ∧
      st' = ⟨insertA id entries st.rooms, next'⟩ ∧
      effs = seffs ++ despawnDropped tracked (keysOf entries) := by
  simp only [room_system_step, htr, Option.bind_eq_bind, Option.some_bind,
    Option.bind_eq_some] at h
  obtain ⟨⟨entries, seffs, next'⟩, hsync, hout⟩ := h
  have hout' := Option.some.inj hout
  rw [Prod.mk.injEq] at hout'
  exact ⟨entries, seffs, next', hsync, hout'.1.symm, hout'.2.symm⟩

theorem step_removed_elim {r : PrefabRegistry} {st : SysState} {id : Nat}
    {st' : SysState} {effs : List Effect}
    {entries : List (String × TrackedEntry)}
    (htr : lookupA id st.rooms = some entries)
    (h : room_system_step r st (RoomEvent.Removed id) = some (st', effs)) :
    st' = ⟨removeA id st.rooms, st.nextEntity⟩ ∧
    effs = entries.map (fun e => Effect.despawn e.2.1) := by
  simp only [room_system_step, htr] at h
  have h' := Option.some.inj h
  rw [Prod.mk.injEq] at h'
  exact ⟨h'.1.symm, h'.2.symm⟩

theorem get_changed_fields_self_eq_nil (d : PrefabData)
    (hnd : (keysOf d.fields).Nodup) :
    PrefabData.get_changed_fields d d = [] := by
  rw [get_changed_fields_eq_filterMap _ _ rfl]
  rw [List.filterMap_eq_nil_iff]
  intro kf hkf
  obtain ⟨k, v⟩ := kf
  rw [if_neg]
  simp only [ne_eq, not_not]
  exact lookupA_eq_some_of_mem_nodup hnd hkf

end Lemmas

/-- C1: for descriptors with equal type tags, `get_changed_fields old new`
binds a key to a value exactly when the new descriptor binds that key to that
value and the old descriptor does not; in particular no key with identical
values on both sides is present, and no key absent from the new fields is
present. -/
theorem C1_get_changed_fields_exact (old_prefab new_prefab : PrefabData)
    (hty : old_prefab.prefab_type = new_prefab.prefab_type)
    (hnd : (keysOf new_prefab.fields).Nodup) (k : String) (v : PrefabField) :
    lookupA k (PrefabData.get_changed_fields old_prefab new_prefab) = some v ↔
      (lookupA k new_prefab.fields = some v ∧
        lookupA k old_prefab.fields ≠ some v) := by
  rw [get_changed_fields_eq_filterMap _ _ hty]
  exact lookupA_filterMap_if _ hnd k v

/-- Witness for C1 at a concrete pair of descriptors. -/
theorem C1_witness :
    lookupA "x" (PrefabData.get_changed_fields
        ⟨"T", [("x", PrefabField.Number 1)]⟩
        ⟨"T", [("x", PrefabField.Number 2), ("y", PrefabField.Bool true)]⟩) =
        some (PrefabField.Number 2) ↔
      (lookupA "x" (PrefabData.mk "T"
          [("x", PrefabField.Number 2), ("y", PrefabField.Bool true)]).fields =
          some (PrefabField.Number 2) ∧
        lookupA "x" (PrefabData.mk "T" [("x", PrefabField.Number 1)]).fields ≠
          some (PrefabField.Number 2)) :=
  C1_get_changed_fields_exact
    ⟨"T", [("x", PrefabField.Number 1)]⟩
    ⟨"T", [("x", PrefabField.Number 2), ("y", PrefabField.Bool true)]⟩
    rfl (by decide) "x" (PrefabField.Number 2)

/-- C2: diffing a descriptor against itself yields the empty mapping. -/
theorem C2_get_changed_fields_self (d : PrefabData)
    (hnd : (keysOf d.fields).Nodup) :
    PrefabData.get_changed_fields d d = [] :=
  get_changed_fields_self_eq_nil d hnd

/-- Witness for C2 at a concrete descriptor. -/
theorem C2_witness :
    PrefabData.get_changed_fields
        ⟨"T", [("x", PrefabField.Number 3), ("s", PrefabField.String "hi")]⟩
        ⟨"T", [("x", PrefabField.Number 3), ("s", PrefabField.String "hi")]⟩ =
      [] :=
  C2_get_changed_fields_self
    ⟨"T", [("x", PrefabField.Number 3), ("s", PrefabField.String "hi")]⟩
    (by decide)

/-- C3: during a `Modified` event, an instance whose old and new type tags
differ gets an empty changed-field set from the diff (the mismatch only logs
a warning; the diff itself cannot panic), its update is issued with that
empty set, and its tracker entry keeps the existing entity. -/
theorem C3_type_mismatch_empty_diff (r : PrefabRegistry) (st : SysState)
    (id : Nat) (room : Room) (tracked : List (String × TrackedEntry))
    (name : String) (entity : Nat) (old_prefab new_prefab : PrefabData)
    (st' : SysState) (effs : List Effect)
    (htr : lookupA id st.rooms = some tracked)
    (hname : lookupA name tracked = some (entity, old_prefab))
    (hnew : lookupA name room.prefabs = some new_prefab)
    (hty : old_prefab.prefab_type ≠ new_prefab.prefab_type)
    (hok : room_system_step r st (RoomEvent.Modified id room) =
      some (st', effs)) :
    PrefabData.get_changed_fields old_prefab new_prefab = [] ∧
    (∃ b, lookupA new_prefab.prefab_type r.prefabs = some b ∧
      Effect.updateCall b entity [] ∈ effs) ∧
    ∃ entries, lookupA id st'.rooms = some entries ∧
      lookupA name entries = some (entity, new_prefab) := by
  have hgcf : PrefabData.get_changed_fields old_prefab new_prefab = [] := by
    unfold PrefabData.get_changed_fields
    rw [if_pos hty]
  obtain ⟨entries, seffs, next', hsync, rfl, rfl⟩ :=
    step_modified_elim htr hok
  obtain ⟨hlook, b, hb, hupd⟩ := syncPrefabs_tracked_update hsync hnew hname
  rw [hgcf] at hupd
  exact ⟨hgcf, ⟨b, hb, List.mem_append_left _ hupd⟩,
    entries, lookupA_insertA_self _ _ _, hlook⟩

/-- Witness for C3: instance "a" switches from type "T" to type "U"; the
update is dispatched with an empty changed-field set on the original
entity 0. -/
theorem C3_witness :
    PrefabData.get_changed_fields ⟨"T", []⟩ ⟨"U", []⟩ = [] ∧
    (∃ b, lookupA (PrefabData.mk "U" []).prefab_type regU.prefabs = some b ∧
      Effect.updateCall b 0 [] ∈ [Effect.updateCall 1 0 []]) ∧
    ∃ entries, lookupA 0
        (SysState.mk (insertA 0 [("a", (0, ⟨"U", []⟩))] stU.rooms) 1).rooms =
        some entries ∧
      lookupA "a" entries = some (0, ⟨"U", []⟩) :=
  C3_type_mismatch_empty_diff regU stU 0 roomU
    [("a", (0, ⟨"T", []⟩))] "a" 0 ⟨"T", []⟩ ⟨"U", []⟩
    ⟨insertA 0 [("a", (0, ⟨"U", []⟩))] stU.rooms, 1⟩
    [Effect.updateCall 1 0 []]
    (by decide) (by decide) (by decide) (by decide) (by decide)

/-- C4 counterexample: adding `docW` then modifying to `docW'` adds "b" and
removes "c"; the surviving instance "a" receives its only update with an
EMPTY changed-field set even though its descriptor changed (its x field was
removed), refuting "empty if and only if the descriptor is unchanged". -/
theorem C4_counterexample :
    room_system regW ⟨[], 0⟩
        [RoomEvent.Added 0 docW, RoomEvent.Modified 0 docW'] =
      some (⟨[(0, [("a", (0, ⟨"T", []⟩)), ("b", (2, ⟨"T", []⟩))])], 3⟩,
        [Effect.spawnCall 0 0 [("x", PrefabField.Number 1)],
         Effect.spawnCall 0 1 [],
         Effect.updateCall 0 0 [],
         Effect.spawnCall 0 2 [],
         Effect.despawn 1]) ∧
    ([Effect.spawnCall 0 0 [("x", PrefabField.Number 1)],
      Effect.spawnCall 0 1 [],
      Effect.updateCall 0 0 [],
      Effect.spawnCall 0 2 [],
      Effect.despawn 1].filter (Effect.isUpdateOn 0)) =
      [Effect.updateCall 0 0 []] ∧
    lookupA "a" docW.prefabs ≠ lookupA "a" docW'.prefabs := by
  refine ⟨by decide, by decide, by decide⟩

/-- C4 (amended): after `Added(doc)` followed by `Modified(doc')` where doc'
adds exactly one new instance name and removes exactly one existing one, the
`Modified` event issues exactly one spawn and exactly one despawn; every name
present in both documents receives exactly one update, on its spawn-time
entity, carrying the changed-field diff of its two descriptors — empty IF
the descriptor is unchanged (the converse direction of the original claim
fails, see the counterexample). -/
theorem C4_add_remove_one (r : PrefabRegistry) (st : SysState) (id : Nat)
    (doc doc' : Room) (st1 st2 : SysState) (effs1 effs2 : List Effect)
    (h1 : room_system_step r st (RoomEvent.Added id doc) = some (st1, effs1))
    (h2 : room_system_step r st1 (RoomEvent.Modified id doc') =
      some (st2, effs2))
    (hnd' : (keysOf doc'.prefabs).Nodup)
    (hfld : ∀ p ∈ doc'.prefabs, (keysOf p.2.fields).Nodup)
    (hadd : (keysOf doc'.prefabs).countP
      (fun n => (lookupA n doc.prefabs).isNone) = 1)
    (hrem : (keysOf doc.prefabs).countP
      (fun n => (lookupA n doc'.prefabs).isNone) = 1) :
    effs2.countP Effect.isSpawn = 1 ∧
    effs2.countP Effect.isDespawn = 1 ∧
    ∀ name old_prefab new_prefab,
      lookupA name doc.prefabs = some old_prefab →
      lookupA name doc'.prefabs = some new_prefab →
      ∃ entity b,
        effs2.countP (Effect.isUpdateOn entity) = 1 ∧
        lookupA new_prefab.prefab_type r.prefabs = some b ∧
        Effect.updateCall b entity
          (PrefabData.get_changed_fields old_prefab new_prefab) ∈ effs2 ∧
        (old_prefab = new_prefab →
          PrefabData.get_changed_fields old_prefab new_prefab = []) := by
  obtain ⟨tracked, next1, hsp, rfl⟩ := step_added_elim h1
  have htr1 : lookupA id (insertA id tracked st.rooms) = some tracked :=
    lookupA_insertA_self _ _ _
  obtain ⟨entries, seffs, next2, hsync, rfl, rfl⟩ := step_modified_elim htr1 h2
  have hkeysT : keysOf tracked = keysOf doc.prefabs := spawnAll_keys hsp
  have hkeysE : keysOf entries = keysOf doc'.prefabs := syncPrefabs_keys hsync
  have hentN : (tracked.map (fun e => e.2.1)).Nodup := by
    rw [spawnAll_entities hsp]
    exact List.nodup_range' _ _
  refine ⟨?_, ?_, ?_⟩
  · have e1 : seffs.countP Effect.isSpawn = 1 := by
      rw [syncPrefabs_spawn_countP hsync]
      have htrans : doc'.prefabs.countP
          (fun p => (lookupA p.1 tracked).isNone) =
          (keysOf doc'.prefabs).countP
            (fun n => (lookupA n doc.prefabs).isNone) := by
        rw [keysOf, List.countP_map]
        apply List.countP_congr
        intro x hx
        simp [Option.isNone_iff_eq_none, lookupA_eq_none_iff, hkeysT]
      rw [htrans, hadd]
    rw [List.countP_append, e1, despawnDropped_countP_isSpawn]
  · have e2 : (despawnDropped tracked (keysOf entries)).countP
        Effect.isDespawn = 1 := by
      rw [despawnDropped_countP_isDespawn, hkeysT]
      have htrans : (keysOf doc.prefabs).countP
          (fun n => !((keysOf entries).contains n)) =
          (keysOf doc.prefabs).countP
            (fun n => (lookupA n doc'.prefabs).isNone) := by
        apply List.countP_congr
        intro n hn
        simp [hkeysE, Option.isNone_iff_eq_none, lookupA_eq_none_iff]
      rw [htrans, hrem]
    rw [List.countP_append, syncPrefabs_countP_isDespawn hsync, e2]
  · intro name old_prefab new_prefab hold hnew
    obtain ⟨entity, htrk⟩ := spawnAll_lookup hsp hold
    obtain ⟨hlook, b, hb, hupd⟩ := syncPrefabs_tracked_update hsync hnew htrk
    refine ⟨entity, b, ?_, hb, List.mem_append_left _ hupd, ?_⟩
    · rw [List.countP_append, syncPrefabs_update_countP entity hsync,
        despawnDropped_countP_isUpdateOn]
      have hcnt : doc'.prefabs.countP
          (fun p => match lookupA p.1 tracked with
            | some q => decide (q.1 = entity)
            | none => false) = 1 := by
        apply countP_eq_one_of_unique (hnd'.of_map Prod.fst)
          (a := (name, new_prefab)) (mem_of_lookupA_eq_some hnew)
        · simp [htrk]
        · intro p hp hpred
          cases hq : lookupA p.1 tracked with
          | none => rw [hq] at hpred; simp at hpred
          | some q =>
            obtain ⟨e', pd'⟩ := q
            rw [hq] at hpred
            simp only [decide_eq_true_eq] at hpred
            subst hpred
            have hpn : p.1 = name := lookupA_same_entity hentN hq htrk
            have hlkp : lookupA p.1 doc'.prefabs = some p.2 :=
              lookupA_eq_some_of_mem_nodup hnd'
                (by rw [← Prod.mk.eta (p := p)] at hp; exact hp)
            rw [hpn] at hlkp
            rw [hlkp] at hnew
            have hsnd : p.2 = new_prefab := Option.some.inj hnew
            rw [← Prod.mk.eta (p := p), hpn, hsnd]
      rw [hcnt]
    · intro heq
      subst heq
      exact get_changed_fields_self_eq_nil _
        (hfld _ (mem_of_lookupA_eq_some hnew))

/-- Witness for C4's amended claim at the concrete documents `docW` and
`docW'`. -/
theorem C4_witness :
    ([Effect.updateCall 0 0 [], Effect.spawnCall 0 2 [],
        Effect.despawn 1].countP Effect.isSpawn = 1) ∧
    ([Effect.updateCall 0 0 [], Effect.spawnCall 0 2 [],
        Effect.despawn 1].countP Effect.isDespawn = 1) ∧
    (∀ name old_prefab new_prefab,
      lookupA name docW.prefabs = some old_prefab →
      lookupA name docW'.prefabs = some new_prefab →
      ∃ entity b,
        ([Effect.updateCall 0 0 [], Effect.spawnCall 0 2 [],
          Effect.despawn 1].countP (Effect.isUpdateOn entity) = 1) ∧
        lookupA new_prefab.prefab_type regW.prefabs = some b ∧
        Effect.updateCall b entity
          (PrefabData.get_changed_fields old_prefab new_prefab) ∈
          [Effect.updateCall 0 0 [], Effect.spawnCall 0 2 [],
           Effect.despawn 1] ∧
        (old_prefab = new_prefab →
          PrefabData.get_changed_fields old_prefab new_prefab = [])) :=
  C4_add_remove_one regW ⟨[], 0⟩ 0 docW docW'
    ⟨[(0, [("a", (0, ⟨"T", [("x", PrefabField.Number 1)]⟩)),
        ("c", (1, ⟨"T", []⟩))])], 2⟩
    ⟨[(0, [("a", (0, ⟨"T", []⟩)), ("b", (2, ⟨"T", []⟩))])], 3⟩
    [Effect.spawnCall 0 0 [("x", PrefabField.Number 1)],
     Effect.spawnCall 0 1 []]
    [Effect.updateCall 0 0 [], Effect.spawnCall 0 2 [], Effect.despawn 1]
    (by decide) (by decide) (by decide) (by decide) (by decide) (by decide)

/-- C5: an instance name present both in the tracker and in the modified
document is updated against the entity recorded at spawn time — an update
carrying the descriptors' diff is issued on exactly that entity — and keeps
it: its tracker entry after the event carries the same entity, it is never
despawned, and no spawn is issued on its entity — regardless of whether its
type tag changed. -/
theorem C5_handle_stability (r : PrefabRegistry) (st : SysState) (id : Nat)
    (room : Room) (tracked : List (String × TrackedEntry)) (name : String)
    (entity : Nat) (old_prefab new_prefab : PrefabData)
    (st' : SysState) (effs : List Effect)
    (htr : lookupA id st.rooms = some tracked)
    (hname : lookupA name tracked = some (entity, old_prefab))
    (hnew : lookupA name room.prefabs = some new_prefab)
    (hent : (tracked.map (fun e => e.2.1)).Nodup)
    (hlt : entity < st.nextEntity)
    (hok : room_system_step r st (RoomEvent.Modified id room) =
      some (st', effs)) :
    (∃ entries, lookupA id st'.rooms = some entries ∧
      lookupA name entries = some (entity, new_prefab)) ∧
    (∃ b, lookupA new_prefab.prefab_type r.prefabs = some b ∧
      Effect.updateCall b entity
        (PrefabData.get_changed_fields old_prefab new_prefab) ∈ effs) ∧
    Effect.despawn entity ∉ effs ∧
    ∀ b f, Effect.spawnCall b entity f ∉ effs := by
  obtain ⟨entries, seffs, next', hsync, rfl, rfl⟩ :=
    step_modified_elim htr hok
  obtain ⟨hlook, b, hb, hupd⟩ := syncPrefabs_tracked_update hsync hnew hname
  refine ⟨⟨entries, lookupA_insertA_self _ _ _, hlook⟩,
    ⟨b, hb, List.mem_append_left _ hupd⟩, ?_, ?_⟩
  · intro hmem
    rcases List.mem_append.mp hmem with hc | hc
    · exact syncPrefabs_no_despawn hsync entity hc
    · have hkeys : name ∈ keysOf entries :=
        List.mem_map.mpr ⟨(name, (entity, new_prefab)),
          mem_of_lookupA_eq_some hlook, rfl⟩
      exact despawn_not_mem_of_kept hent hname hkeys hc
  · intro b' f hmem
    rcases List.mem_append.mp hmem with hc | hc
    · exact absurd (syncPrefabs_spawn_ge hsync hc) (by omega)
    · obtain ⟨n2, e2, p2, heq, -, -⟩ := despawnDropped_mem hc
      exact Effect.noConfusion heq

/-- Witness for C5: the type-changed instance "a" receives its update on the
original entity 0, keeps entity 0 in the tracker across the `Modified`
event, and entity 0 is neither despawned nor respawned. -/
theorem C5_witness :
    (∃ entries, lookupA 0
        (SysState.mk (insertA 0 [("a", (0, ⟨"U", []⟩))] stU.rooms) 1).rooms =
        some entries ∧
      lookupA "a" entries = some (0, ⟨"U", []⟩)) ∧
    (∃ b, lookupA (PrefabData.mk "U" []).prefab_type regU.prefabs = some b ∧
      Effect.updateCall b 0
        (PrefabData.get_changed_fields ⟨"T", []⟩ ⟨"U", []⟩) ∈
        [Effect.updateCall 1 0 []]) ∧
    Effect.despawn 0 ∉ [Effect.updateCall 1 0 []] ∧
    ∀ b f, Effect.spawnCall b 0 f ∉ [Effect.updateCall 1 0 []] :=
  C5_handle_stability regU stU 0 roomU
    [("a", (0, ⟨"T", []⟩))] "a" 0 ⟨"T", []⟩ ⟨"U", []⟩
    ⟨insertA 0 [("a", (0, ⟨"U", []⟩))] stU.rooms, 1⟩
    [Effect.updateCall 1 0 []]
    (by decide) (by decide) (by decide) (by decide) (by decide) (by decide)

/-- C6: processing `Added(doc)` and then immediately `Removed` for the same
id leaves no tracker entry for that id, and the despawn trace of the
`Removed` event is exactly one despawn per spawn of the `Added` event, on
the same entities and in the same order. -/
theorem C6_added_then_removed (r : PrefabRegistry) (st : SysState) (id : Nat)
    (room : Room) (st1 st2 : SysState) (effs1 effs2 : List Effect)
    (h1 : room_system_step r st (RoomEvent.Added id room) = some (st1, effs1))
    (h2 : room_system_step r st1 (RoomEvent.Removed id) = some (st2, effs2)) :
    lookupA id st2.rooms = none ∧
    effs2 = effs1.filterMap (fun eff => match eff with
      | Effect.spawnCall _ e _ => some (Effect.despawn e)
      | _ => none) := by
  obtain ⟨entries, next', hsp, rfl⟩ := step_added_elim h1
  have htr1 : lookupA id (insertA id entries st.rooms) = some entries :=
    lookupA_insertA_self _ _ _
  obtain ⟨rfl, heff2⟩ := step_removed_elim htr1 h2
  constructor
  · exact lookupA_removeA_self id _
  · rw [heff2]
    exact spawnAll_despawn_trace hsp

/-- Witness for C6: adding then removing the two-instance document `docW`
despawns exactly entities 0 and 1, and the tracker ends empty for id 0. -/
theorem C6_witness :
    lookupA 0 (SysState.mk
      (removeA 0 (insertA 0
        [("a", (0, ⟨"T", [("x", PrefabField.Number 1)]⟩)),
         ("c", (1, ⟨"T", []⟩))] (SysState.mk [] 0).rooms))
      2).rooms = none ∧
    [Effect.despawn 0, Effect.despawn 1] =
      ([Effect.spawnCall 0 0 [("x", PrefabField.Number 1)],
        Effect.spawnCall 0 1 []].filterMap (fun eff => match eff with
        | Effect.spawnCall _ e _ => some (Effect.despawn e)
        | _ => none)) :=
  C6_added_then_removed regW ⟨[], 0⟩ 0 docW
    ⟨insertA 0 [("a", (0, ⟨"T", [("x", PrefabField.Number 1)]⟩)),
      ("c", (1, ⟨"T", []⟩))] (SysState.mk [] 0).rooms, 2⟩
    ⟨removeA 0 (insertA 0
      [("a", (0, ⟨"T", [("x", PrefabField.Number 1)]⟩)),
       ("c", (1, ⟨"T", []⟩))] (SysState.mk [] 0).rooms), 2⟩
    [Effect.spawnCall 0 0 [("x", PrefabField.Number 1)],
     Effect.spawnCall 0 1 []]
    [Effect.despawn 0, Effect.despawn 1]
    (by decide) (by decide)

/-- C7: with two documents tracked under distinct ids, an `Unused` event for
the first despawns exactly the first document's entities, and the second
document's tracker entry is unchanged. -/
theorem C7_unused_isolation (r : PrefabRegistry) (st : SysState)
    (id1 id2 : Nat) (e1 e2 : List (String × TrackedEntry))
    (h1 : lookupA id1 st.rooms = some e1)
    (h2 : lookupA id2 st.rooms = some e2) (hne : id1 ≠ id2) :
    room_system_step r st (RoomEvent.Unused id1) =
      some (⟨removeA id1 st.rooms, st.nextEntity⟩,
        e1.map (fun e => Effect.despawn e.2.1)) ∧
    lookupA id2 (removeA id1 st.rooms) = some e2 := by
  constructor
  · simp [room_system_step, h1]
  · rw [lookupA_removeA_ne _ _ _ hne]
    exact h2

/-- Witness for C7: two concrete one-instance documents. -/
theorem C7_witness :
    room_system_step regW stW (RoomEvent.Unused 0) =
      some (⟨removeA 0 stW.rooms, stW.nextEntity⟩,
        [("a", ((0 : Nat), PrefabData.mk "T" []))].map
          (fun e => Effect.despawn e.2.1)) ∧
    lookupA 1 (removeA 0 stW.rooms) = some [("b", (1, ⟨"T", []⟩))] :=
  C7_unused_isolation regW stW 0 1
    [("a", (0, ⟨"T", []⟩))] [("b", (1, ⟨"T", []⟩))]
    (by decide) (by decide) (by decide)

/-- C8: `PrefabRegistry.spawn` and `PrefabRegistry.update` both index the
registry by the type tag and fail fatally (modelled as `none`) when it is
unregistered; for a registered tag, `spawn` invokes the registered behavior
with exactly the descriptor's fields. -/
theorem C8_registry_lookup_discipline (r : PrefabRegistry)
    (prefab_data : PrefabData) (entity : Nat)
    (changed_fields : List (String × PrefabField)) :
    (lookupA prefab_data.prefab_type r.prefabs = none →
      r.spawn prefab_data entity = none ∧
        r.update prefab_data.prefab_type changed_fields entity = none) ∧
    (∀ b, lookupA prefab_data.prefab_type r.prefabs = some b →
      r.spawn prefab_data entity =
          some (Effect.spawnCall b entity prefab_data.fields) ∧
        r.update prefab_data.prefab_type changed_fields entity =
          some (Effect.updateCall b entity changed_fields)) := by
  constructor
  · intro h
    constructor <;> simp [PrefabRegistry.spawn, PrefabRegistry.update, h]
  · intro b h
    constructor <;> simp [PrefabRegistry.spawn, PrefabRegistry.update, h]

/-- Witness for C8: a registry knowing only tag "T", probed with an
unregistered tag "U" and the registered tag "T". -/
theorem C8_witness :
    (PrefabRegistry.spawn ⟨[("T", 5)]⟩ ⟨"U", []⟩ 0 = none ∧
      PrefabRegistry.update ⟨[("T", 5)]⟩ "U" [] 0 = none) ∧
    (PrefabRegistry.spawn ⟨[("T", 5)]⟩ ⟨"T", [("x", PrefabField.None)]⟩ 1 =
        some (Effect.spawnCall 5 1 [("x", PrefabField.None)]) ∧
      PrefabRegistry.update ⟨[("T", 5)]⟩ "T" [] 1 =
        some (Effect.updateCall 5 1 [])) :=
  ⟨(C8_registry_lookup_discipline ⟨[("T", 5)]⟩ ⟨"U", []⟩ 0 []).1 (by decide),
   ⟨((C8_registry_lookup_discipline ⟨[("T", 5)]⟩
        ⟨"T", [("x", PrefabField.None)]⟩ 1 []).2 5 (by decide)).1,
    ((C8_registry_lookup_discipline ⟨[("T", 5)]⟩
        ⟨"T", []⟩ 1 []).2 5 (by decide)).2⟩⟩

/-- C9: registering a second behavior under an already-registered tag
overwrites the first, so subsequent `spawn` and `update` calls dispatch to
the behavior registered last. -/
theorem C9_register_last_write_wins (r : PrefabRegistry) (t : String)
    (b1 b2 : Nat) (prefab_data : PrefabData) (entity : Nat)
    (changed_fields : List (String × PrefabField))
    (hty : prefab_data.prefab_type = t) :
    lookupA t (((r.register_prefab t b1).register_prefab t b2)).prefabs =
        some b2 ∧
    ((r.register_prefab t b1).register_prefab t b2).spawn prefab_data
        entity = some (Effect.spawnCall b2 entity prefab_data.fields) ∧
    ((r.register_prefab t b1).register_prefab t b2).update t changed_fields
        entity = some (Effect.updateCall b2 entity changed_fields) := by
  have hl : lookupA t
      (((r.register_prefab t b1).register_prefab t b2)).prefabs = some b2 :=
    lookupA_insertA_self t b2 _
  refine ⟨hl, ?_, ?_⟩
  · simp [PrefabRegistry.spawn, hty, hl]
  · simp [PrefabRegistry.update, hl]

/-- Witness for C9: registering behaviors 1 then 2 under tag "T". -/
theorem C9_witness :
    lookupA "T"
        (((PrefabRegistry.mk []).register_prefab "T" 1).register_prefab
          "T" 2).prefabs = some 2 ∧
    (((PrefabRegistry.mk []).register_prefab "T" 1).register_prefab
        "T" 2).spawn ⟨"T", []⟩ 0 = some (Effect.spawnCall 2 0 []) ∧
    (((PrefabRegistry.mk []).register_prefab "T" 1).register_prefab
        "T" 2).update "T" [] 0 = some (Effect.updateCall 2 0 []) :=
  C9_register_last_write_wins ⟨[]⟩ "T" 1 2 ⟨"T", []⟩ 0 [] rfl

/-- C10: an `Unused` or `Removed` event for an id with no tracker entry is a
no-op: no panic, no despawns, and the state is unchanged. -/
theorem C10_teardown_untracked_noop (r : PrefabRegistry) (st : SysState)
    (id : Nat) (h : lookupA id st.rooms = none) :
    room_system_step r st (RoomEvent.Unused id) = some (st, []) ∧
    room_system_step r st (RoomEvent.Removed id) = some (st, []) := by
  obtain ⟨rooms, nextEntity⟩ := st
  have hrm : removeA id rooms = rooms := removeA_of_lookupA_none id _ h
  constructor <;> simp [room_system_step, h, hrm]

/-- Witness for C10: a state tracking only id 0, probed with id 7. -/
theorem C10_witness :
    room_system_step regW ⟨[(0, [("a", (0, ⟨"T", []⟩))]), ], 1⟩
        (RoomEvent.Unused 7) =
      some (⟨[(0, [("a", (0, ⟨"T", []⟩))]), ], 1⟩, []) ∧
    room_system_step regW ⟨[(0, [("a", (0, ⟨"T", []⟩))]), ], 1⟩
        (RoomEvent.Removed 7) =
      some (⟨[(0, [("a", (0, ⟨"T", []⟩))]), ], 1⟩, []) :=
  C10_teardown_untracked_noop regW ⟨[(0, [("a", (0, ⟨"T", []⟩))]), ], 1⟩ 7
    (by decide)

end HanaPrefab
